import Mathlib

/-!
Verification development for the `rexursive-observer` library (`src/index.ts`).

The library wraps a plain object tree in nested `Proxy`s so that property
writes can be observed through dotted-path subscriptions backed by rxjs
`Subject`s.  The development below is a shallow embedding of the parts of
`src/index.ts` the claims are about:

* `Value` models a JavaScript value as seen by the library: `undefV`
  (`undefined`), `vnull` (`null`), `prim`/`str` (further primitives; two
  constructors so that model equality refines JavaScript `===` on
  non-object values), `arr` (arrays) and `obj` (plain objects, an ordered
  association list of own enumerable string-keyed properties, mirroring
  JavaScript property order for the non-integer-like keys the library
  produces).  `Fields` and `Elems` are mutually inductive so that all
  recursion over the tree is structural and kernel-computable.
* `buildNotificationChain` embeds the function of the same name
  (src/index.ts:236-247).  A chain is an insertion-ordered association
  list, `jsInsert`/`jsAssign` mirror `chain[key] = v` and `Object.assign`
  (update an existing key in place, append a new one).
* `setTrap` embeds the `set` handler (src/index.ts:41-116), including the
  custom-handler veto, the leaf short-circuit, and the fact that
  `new Proxy(value, …)` at line 71 throws a `TypeError` when `value` is
  `null` (recorded as `SetResult.threw`; the stored proxy is otherwise
  observationally the wrapped value itself).  `args` are the trailing
  path-prefix arguments bound by `bindLast` for nested proxies.
* `deleteTrap` records what the handler set of line 38 does on a `delete`:
  the library installs only `set` and `get`, so deletion follows the
  host's default semantics (or a caller-supplied `deleteProperty` kept by
  `Object.assign(optHandlers, {set, get})`) and none of the library's
  notification code runs.
* `snapshotPath` embeds `snapshot` (src/index.ts:163-198) for a
  non-empty string path; `specResolve` is a second definition written
  from the spec's words for the refinement comparison.
* `Heap`/`wrapFuel` embed `buildInitialProxyChain` (src/index.ts:211-224)
  over an address heap, so that self-referential inputs are expressible;
  `wrapFuel` is the recursion bounded by fuel: the code has no
  visited-identity set, and on a cyclic heap no amount of fuel completes.
-/

mutual
inductive Value where
  | undefV
  | vnull
  | prim (n : Nat)
  | str (s : String)
  | arr (elems : Elems)
  | obj (fields : Fields)

inductive Fields where
  | fnil
  | fcons (key : String) (val : Value) (rest : Fields)

inductive Elems where
  | enil
  | econs (head : Value) (rest : Elems)
end

deriving instance DecidableEq for Value, Fields, Elems

/-- Chains (`notificationChain` objects) are insertion-ordered association
lists from dotted path strings to values. -/
abbrev Chain := List (String × Value)

/-- JavaScript `typeof v === "object"`: true for `null`, arrays and plain
objects (src/index.ts:43, 214, 241 all use this test). -/
def typeofObject : Value → Bool
  | .vnull | .arr _ | .obj _ => true
  | _ => false

/-- JavaScript `Array.isArray`. -/
def isArray : Value → Bool
  | .arr _ => true
  | _ => false

/-- JavaScript truthiness of a value (used by `snapshot`'s `acc &&` and
`current &&` checks; `NaN` is outside the model). -/
def truthyV : Value → Bool
  | .undefV | .vnull => false
  | .prim n => n != 0
  | .str s => s != ""
  | .arr _ => true
  | .obj _ => true

/-- JavaScript `Object.prototype.hasOwnProperty` on a plain object. -/
def Fields.hasOwn : Fields → String → Bool
  | .fnil, _ => false
  | .fcons k _ rest, key => k == key || rest.hasOwn key

/-- JavaScript property read `obj[key]`: `undefined` when absent. -/
def Fields.jsGet : Fields → String → Value
  | .fnil, _ => .undefV
  | .fcons k v rest, key => if k = key then v else rest.jsGet key

/-- JavaScript property write `obj[key] = value`: update an existing key in
place, otherwise append (property insertion order). -/
def Fields.jsSet : Fields → String → Value → Fields
  | .fnil, key, value => .fcons key value .fnil
  | .fcons k v rest, key, value =>
      if k = key then .fcons k value rest else .fcons k v (rest.jsSet key value)

/-- JavaScript `delete obj[key]` on a configurable data property. -/
def Fields.jsDelete : Fields → String → Fields
  | .fnil, _ => .fnil
  | .fcons k v rest, key =>
      if k = key then rest.jsDelete key else .fcons k v (rest.jsDelete key)

/-- JavaScript `chain[key] = v` on a chain object: existing keys are updated
in place (keeping their position), new keys are appended. -/
def jsInsert (chain : Chain) (key : String) (v : Value) : Chain :=
  if chain.any (fun e => e.1 = key) then
    chain.map (fun e => if e.1 = key then (key, v) else e)
  else
    chain ++ [(key, v)]

/-- JavaScript `Object.assign(chain, source)`: assign every entry of
`source`, in order, into `chain`. -/
def jsAssign (chain : Chain) (source : Chain) : Chain :=
  source.foldl (fun acc e => jsInsert acc e.1 e.2) chain

/-- Does the chain contain an entry for `key`? -/
def hasKey (chain : Chain) (key : String) : Bool :=
  chain.any (fun e => e.1 = key)

/-- JavaScript `[...segs].join(".")`. -/
def joinPath : List String → String
  | [] => ""
  | [s] => s
  | s :: rest => s ++ "." ++ joinPath rest

/-- Helper for `jsSplitDot`: `acc` holds the current segment reversed. -/
def splitDotAux : List Char → List Char → List String
  | [], cur => [String.mk cur.reverse]
  | c :: rest, cur =>
      if c = '.' then String.mk cur.reverse :: splitDotAux rest []
      else splitDotAux rest (c :: cur)

/-- JavaScript `path.split(".")` (so `"" ↦ [""]`, `"a.b" ↦ ["a","b"]`). -/
def jsSplitDot (s : String) : List String := splitDotAux s.data []

/-- Own enumerable properties of an array as seen by `for…in`: its indices
(as decimal strings) paired with the elements. -/
def arrEntries (start : Nat) : Elems → Fields
  | .enil => .fnil
  | .econs v rest => .fcons (Nat.repr start) v (arrEntries (start + 1) rest)

/-- Length of an array. -/
def elemsLen : Elems → Nat
  | .enil => 0
  | .econs _ rest => elemsLen rest + 1

mutual
/-- Embedding of `buildNotificationChain(source, ...args)`
(src/index.ts:236-247): for every own enumerable `prop` of `source` (in
order) set `chain[[...args, prop].join(".")] = source[prop]`, and when the
property value is object-typed and not an array, `Object.assign` its own
recursively built chain into `chain`.  `for…in` over a plain object
enumerates its string keys, over an array its indices, and over
`null`/primitives nothing. -/
def buildNotificationChain : Value → List String → Chain
  | .obj fields, args => bncLoop [] fields args
  | .arr elems, args => bncElemsLoop [] 0 elems args
  | _, _ => []

/-- The `for…in` loop of `buildNotificationChain` over a plain object's
fields, accumulating into `chain`. -/
def bncLoop : Chain → Fields → List String → Chain
  | chain, .fnil, _ => chain
  | chain, .fcons key v rest, args =>
      let c1 := jsInsert chain (joinPath (args ++ [key])) v
      let c2 := if typeofObject v && !isArray v then
          jsAssign c1 (buildNotificationChain v (args ++ [key]))
        else c1
      bncLoop c2 rest args

/-- The same loop over an array's index entries (`for…in` over an array
yields "0", "1", …). -/
def bncElemsLoop : Chain → Nat → Elems → List String → Chain
  | chain, _, .enil, _ => chain
  | chain, i, .econs v rest, args =>
      let c1 := jsInsert chain (joinPath (args ++ [Nat.repr i])) v
      let c2 := if typeofObject v && !isArray v then
          jsAssign c1 (buildNotificationChain v (args ++ [Nat.repr i]))
        else c1
      bncElemsLoop c2 (i + 1) rest args
end

/-- Deliver the chain: `Object.keys(notificationChain).forEach` fires
`this[observedObjects][keyPath].next(value)` exactly for those paths that
have a channel (src/index.ts:107-113).  `observed` lists the paths with a
channel; the result is the delivered `(path, value)` sequence in chain
order. -/
def deliverChain (observed : List String) (chain : Chain) : Chain :=
  chain.filter (fun e => observed.contains e.1)

/-- Observable outcome of one invocation of the `set` trap.  `threw` records
that the trap raised (the `new Proxy(null, …)` `TypeError` of line 71);
`ok` is the trap's boolean return; `target` the target object afterwards;
`chain` the `notificationChain` reaching the final `forEach` (empty when
the code returned before it); `delivered` the entries actually fired;
`hookCalled` whether the custom `set` handler was invoked. -/
structure SetResult where
  threw : Bool
  ok : Bool
  target : Fields
  chain : Chain
  delivered : Chain
  hookCalled : Bool

deriving instance DecidableEq for SetResult

/-- Outcome when the trap throws: nothing is stored or delivered. -/
def setThrew (obj : Fields) (hookCalled : Bool) : SetResult :=
  ⟨true, false, obj, [], [], hookCalled⟩

/-- The non-object ("else") branch of the `set` trap after the
short-circuit and hook checks (src/index.ts:99-104): store the raw value
and build the single-entry chain keyed by
`args.length ? [...args, prop].join(".") : prop`. -/
def leafStore (observed : List String) (obj : Fields) (prop : String)
    (value : Value) (args : List String) (hookCalled : Bool) : SetResult :=
  let objNew := obj.jsSet prop value
  let elementKey := if args.isEmpty then prop else joinPath (args ++ [prop])
  let notificationChain : Chain := [(elementKey, value)]
  ⟨false, true, objNew, notificationChain, deliverChain observed notificationChain, hookCalled⟩

/-- The object branch of the `set` trap after the hook check: wrap the
value in a proxy and store it (src/index.ts:71-73).  `new Proxy(value, …)`
throws a `TypeError` when `value` is `null`; otherwise the stored proxy is
observationally the value itself. -/
def objectStore (observed : List String) (obj : Fields) (prop : String)
    (value : Value) (notificationChain : Chain) (hookCalled : Bool) : SetResult :=
  if value = .vnull then setThrew obj hookCalled
  else
    ⟨false, true, obj.jsSet prop value, notificationChain,
      deliverChain observed notificationChain, hookCalled⟩

/-- Embedding of the `set` trap (src/index.ts:41-116).

`setCustomHandler` is the caller-supplied `set` hook (only a literal
`false` return aborts); `observed` the paths that have a channel; `obj`
the trap's target; `args` the trailing path-prefix arguments bound by
`bindLast` (empty at the root).

When `typeof value === "object"` the chain is
`Object.assign({[prop]: value}, buildNotificationChain(value, prop))` —
note the source keys it by the bare `prop`, not by `[...args, prop]` —
then the hook may veto, then the value is stored wrapped in a proxy.
Otherwise an identical stored value short-circuits as a successful no-op
before the hook runs; else the hook may veto, the raw value is stored and
a single composed-path entry is delivered. -/
def setTrap (setCustomHandler : Option (Fields → String → Value → Bool))
    (observed : List String) (obj : Fields) (prop : String) (value : Value)
    (args : List String) : SetResult :=
  if typeofObject value then
    let notificationChain := jsAssign [(prop, value)] (buildNotificationChain value [prop])
    match setCustomHandler with
    | some h =>
        if h obj prop value then objectStore observed obj prop value notificationChain true
        else ⟨false, false, obj, [], [], true⟩
    | none => objectStore observed obj prop value notificationChain false
  else
    if obj.jsGet prop = value then ⟨false, true, obj, [], [], false⟩
    else
      match setCustomHandler with
      | some h =>
          if h obj prop value then leafStore observed obj prop value args true
          else ⟨false, false, obj, [], [], true⟩
      | none => leafStore observed obj prop value args false

/-- Observable outcome of a `delete` on a wrapped node. -/
structure DeleteResult where
  confirmed : Bool
  target : Fields
  delivered : Chain

deriving instance DecidableEq for DeleteResult

/-- What happens on `delete node[prop]`: the handler set built at
src/index.ts:38 is `Object.assign(optHandlers, {set: …, get: …})`, so the
library installs no `deleteProperty` trap.  With no caller-supplied trap
the host's default semantics remove the own property and report `true`;
a caller-supplied `deleteProperty` (kept by the `Object.assign`) performs
the removal itself and its boolean is returned.  In both cases none of
the library's notification code runs — `next` is called only inside the
`set` trap — so nothing is ever delivered on a delete. -/
def deleteTrap (optDelete : Option (Fields → String → Fields × Bool))
    (_observed : List String) (target : Fields) (prop : String) : DeleteResult :=
  match optDelete with
  | some h =>
      let r := h target prop
      ⟨r.2, r.1, []⟩
  | none => ⟨true, target.jsDelete prop, []⟩

/-- The `(acc as Object).hasOwnProperty(current)` test of
src/index.ts:169 (false for anything but a plain object here, matching
the guard in front of it). -/
def hasOwnV : Value → String → Bool
  | .obj f, key => f.hasOwn key
  | _, _ => false

/-- Property read on a value known to be a plain object. -/
def jsGetV : Value → String → Value
  | .obj f, key => f.jsGet key
  | _, _ => .undefV

/-- JavaScript `Object.assign({}, v)` for an object-typed `v`
(src/index.ts:186): a plain object keeps its own enumerable string-keyed
entries (one level), an array becomes a plain object keyed by its decimal
indices, and `null` yields `{}`. -/
def objAssignCopy : Value → Value
  | .obj f => .obj f
  | .arr elems => .obj (arrEntries 0 elems)
  | _ => .obj .fnil

/-- One step of `snapshot`'s `reduce` (src/index.ts:168-178): proceed to
`acc[current]` only when `acc` is truthy, object-typed, not an array,
`current` is truthy, and `acc` has the own property; otherwise forward
`undefined`. -/
def snapAcc (acc : Value) (current : String) : Value :=
  if truthyV acc && typeofObject acc && !isArray acc && current != "" && hasOwnV acc current
  then jsGetV acc current
  else .undefV

/-- Embedding of `snapshot(path)` (src/index.ts:163-198).  A non-empty
path is split on `"."` and walked by `snapAcc` from the root; an
`undefined` result is returned as such, an object-typed result is passed
through `Object.assign({}, …)`, any other result is returned as-is.  An
empty path is falsy, so the whole-object branch runs (a shallow copy of
the root's own fields; the `observedObjects` symbol key is not a string
field of the model). -/
def snapshotPath (root : Fields) (path : String) : Value :=
  if path != "" then
    let snap := (jsSplitDot path).foldl snapAcc (Value.obj root)
    if snap = .undefV then .undefV
    else if typeofObject snap then objAssignCopy snap
    else snap
  else
    Value.obj root

/-- Modelled from the spec's words (§4.7 Snapshotter), for the refinement
comparison only: "splits `path` on `.`, walks from the root, and fails as
soon as a segment is missing or the current value is not a plain
composite — returns `undefined`" (the code additionally fails on an empty
segment, mirrored here by the `seg != ""` conjunct). -/
def specResolve : Value → List String → Value
  | v, [] => v
  | v, seg :: rest =>
      match v with
      | .obj f => if seg != "" && f.hasOwn seg then specResolve (f.jsGet seg) rest else .undefV
      | _ => .undefV

/-- A JavaScript value reachable from an object graph: a primitive, an
array (a leaf for `buildInitialProxyChain`, whose `typeof … === "object"
&& !Array.isArray(…)` test skips it), or a reference to a heap object.
References make self-referential inputs expressible. -/
inductive HVal where
  | hprim (n : Nat)
  | harr
  | href (addr : Nat)

deriving instance DecidableEq for HVal

/-- An object heap: every address carries the own enumerable fields of an
object. -/
structure Heap where
  fields : Nat → List (String × HVal)

/-- Result shape of `buildInitialProxyChain`: the built chain of wrapped
nodes (the proxy wrappers themselves are observationally transparent). -/
inductive WrapOut where
  | leafP (n : Nat)
  | leafA
  | node (fields : List (String × WrapOut))

mutual
/-- Embedding of `buildInitialProxyChain(sourceObject, handlers, ...args)`
(src/index.ts:211-224), bounded by `fuel`: the source recurses into every
object-typed non-array property with no visited-identity set, so the
recursion depth is unbounded on cyclic heaps; `wrapFuel` returns `none`
exactly when the recursion exceeds `fuel` nested objects. -/
def wrapFuel : Nat → Heap → Nat → Option WrapOut
  | 0, _, _ => none
  | fuel + 1, h, addr => (wrapFields fuel h (h.fields addr)).map WrapOut.node
termination_by fuel _ _ => (fuel, 0)

/-- The `for…in` loop of `buildInitialProxyChain`: primitives and arrays
are stored as-is, references are wrapped recursively. -/
def wrapFields : Nat → Heap → List (String × HVal) → Option (List (String × WrapOut))
  | _, _, [] => some []
  | fuel, h, (key, .hprim n) :: rest =>
      (wrapFields fuel h rest).map (fun ws => (key, .leafP n) :: ws)
  | fuel, h, (key, .harr) :: rest =>
      (wrapFields fuel h rest).map (fun ws => (key, .leafA) :: ws)
  | fuel, h, (key, .href b) :: rest =>
      match wrapFuel fuel h b with
      | none => none
      | some w =>
          match wrapFields fuel h rest with
          | none => none
          | some ws => some ((key, w) :: ws)
termination_by fuel _ l => (fuel, l.length + 1)
end

/-- A heap whose single object refers to itself: `const o = {}; o.self = o`. -/
def cyclicHeap : Heap :=
  ⟨fun addr => if addr = 0 then [("self", HVal.href 0)] else []⟩

/-- An acyclic two-object heap: `{x: {n: 5}}`. -/
def acyclicHeapEx : Heap :=
  ⟨fun addr => if addr = 0 then [("x", HVal.href 1)]
    else if addr = 1 then [("n", HVal.hprim 5)] else []⟩

/-- Rank function witnessing that `acyclicHeapEx` is acyclic. -/
def rankEx : Nat → Nat := fun addr => if addr = 0 then 1 else 0

/-- A heap is ranked when every reference strictly decreases the rank —
exactly the acyclic object graphs. -/
def RankOk (h : Heap) (r : Nat → Nat) : Prop :=
  ∀ a key b, (key, HVal.href b) ∈ h.fields a → r b < r a

/-! ## Helper lemmas about the chain operations -/

theorem jsAssign_nil (c : Chain) : jsAssign c [] = c := rfl

theorem jsAssign_cons (c : Chain) (x : String × Value) (m : Chain) :
    jsAssign c (x :: m) = jsAssign (jsInsert c x.1 x.2) m := rfl

theorem mem_jsInsert {c : Chain} {k : String} {v : Value} {e : String × Value}
    (he : e ∈ jsInsert c k v) : e ∈ c ∨ e.1 = k := by
  unfold jsInsert at he
  split at he
  · rcases List.mem_map.1 he with ⟨x, hx, hxe⟩
    by_cases hxk : x.1 = k
    · right
      rw [if_pos hxk] at hxe
      rw [← hxe]
    · left
      rw [if_neg hxk] at hxe
      rw [← hxe]
      exact hx
  · rcases List.mem_append.1 he with h | h
    · left; exact h
    · right
      rw [List.mem_singleton.1 h]

theorem mem_jsAssign {e : String × Value} :
    ∀ (m c : Chain), e ∈ jsAssign c m → e ∈ c ∨ ∃ x ∈ m, e.1 = x.1 := by
  intro m
  induction m with
  | nil => intro c h; rw [jsAssign_nil] at h; exact Or.inl h
  | cons x rest ih =>
      intro c h
      rw [jsAssign_cons] at h
      rcases ih _ h with h2 | h2
      · rcases mem_jsInsert h2 with h3 | h3
        · exact Or.inl h3
        · exact Or.inr ⟨x, List.mem_cons_self _ _, h3⟩
      · rcases h2 with ⟨y, hy, hxy⟩
        exact Or.inr ⟨y, List.mem_cons_of_mem _ hy, hxy⟩

theorem jsInsert_cons_ne {k key : String} (hkp : key ≠ k) (v v0 : Value) (c : Chain) :
    jsInsert ((k, v0) :: c) key v = (k, v0) :: jsInsert c key v := by
  unfold jsInsert
  by_cases h : c.any (fun e => e.1 = key) = true
  · simp only [List.any_cons, h, decide_eq_true_eq, Bool.or_true, if_true, List.map_cons]
    rw [if_neg (by simpa using Ne.symm hkp)]
  · have hc : (c.any fun e => e.1 = key) = false := Bool.eq_false_iff.2 h
    have hall : (((k, v0) :: c).any fun e => e.1 = key) = false := by
      rw [List.any_cons, hc]
      simp [Ne.symm hkp]
    rw [if_neg (by simp [hall]), if_neg (by simp [hc]), List.cons_append]

theorem jsAssign_cons_head {k : String} (v0 : Value) :
    ∀ (m c : Chain), (∀ e ∈ m, e.1 ≠ k) →
      jsAssign ((k, v0) :: c) m = (k, v0) :: jsAssign c m := by
  intro m
  induction m with
  | nil => intro c _; rfl
  | cons x rest ih =>
      intro c hm
      rw [jsAssign_cons, jsAssign_cons,
        jsInsert_cons_ne (hm x (List.mem_cons_self _ _)) x.2 v0 c]
      exact ih _ (fun e he => hm e (List.mem_cons_of_mem _ he))

theorem hasKey_jsInsert_self (c : Chain) (k : String) (v : Value) :
    hasKey (jsInsert c k v) k = true := by
  unfold hasKey jsInsert
  by_cases h : c.any (fun e => e.1 = k) = true
  · rw [if_pos h]
    rcases List.any_eq_true.1 h with ⟨x, hx, hxk⟩
    refine List.any_eq_true.2 ⟨(k, v), List.mem_map.2 ⟨x, hx, ?_⟩, by simp⟩
    rw [if_pos (by simpa using hxk)]
  · rw [if_neg h]
    exact List.any_eq_true.2 ⟨(k, v), by simp, by simp⟩

theorem hasKey_jsInsert_mono {c : Chain} {key : String} (k : String) (v : Value)
    (h : hasKey c key = true) : hasKey (jsInsert c k v) key = true := by
  unfold hasKey at h ⊢
  rcases List.any_eq_true.1 h with ⟨x, hx, hxk⟩
  unfold jsInsert
  by_cases hk : c.any (fun e => e.1 = k) = true
  · rw [if_pos hk]
    by_cases hxkey : x.1 = k
    · refine List.any_eq_true.2 ⟨(k, v), List.mem_map.2 ⟨x, hx, by rw [if_pos hxkey]⟩, ?_⟩
      simp only [decide_eq_true_eq] at hxk ⊢
      rw [← hxkey, hxk]
    · exact List.any_eq_true.2 ⟨x, List.mem_map.2 ⟨x, hx, by rw [if_neg hxkey]⟩, hxk⟩
  · rw [if_neg hk]
    exact List.any_eq_true.2 ⟨x, List.mem_append_left _ hx, hxk⟩

theorem hasKey_jsAssign_left {key : String} :
    ∀ (m c : Chain), hasKey c key = true → hasKey (jsAssign c m) key = true := by
  intro m
  induction m with
  | nil => intro c h; rwa [jsAssign_nil]
  | cons x rest ih =>
      intro c h
      rw [jsAssign_cons]
      exact ih _ (hasKey_jsInsert_mono _ _ h)

theorem hasKey_jsAssign_right {key : String} :
    ∀ (m c : Chain), hasKey m key = true → hasKey (jsAssign c m) key = true := by
  intro m
  induction m with
  | nil => intro c h; simp [hasKey] at h
  | cons x rest ih =>
      intro c h
      rw [jsAssign_cons]
      unfold hasKey at h
      rcases List.any_eq_true.1 h with ⟨y, hy, hyk⟩
      rcases List.mem_cons.1 hy with rfl | hy2
      · apply hasKey_jsAssign_left
        have hy1 : y.1 = key := of_decide_eq_true (by simpa using hyk)
        rw [← hy1]
        exact hasKey_jsInsert_self _ _ _
      · exact ih _ (List.any_eq_true.2 ⟨y, hy2, hyk⟩)


theorem joinPath_append_length (args : List String) (k : String) (h : args ≠ []) :
    (joinPath (args ++ [k])).length = (joinPath args).length + 1 + k.length := by
  induction args with
  | nil => exact absurd rfl h
  | cons a rest ih =>
      cases rest with
      | nil =>
          show (joinPath [a, k]).length = (joinPath [a]).length + 1 + k.length
          show (a ++ "." ++ k).length = a.length + 1 + k.length
          simp only [String.length_append]
          have hdot : ".".length = 1 := rfl
          omega
      | cons b rest2 =>
          have step := ih (by simp)
          show (joinPath (a :: ((b :: rest2) ++ [k]))).length
              = (joinPath (a :: b :: rest2)).length + 1 + k.length
          rw [show joinPath (a :: ((b :: rest2) ++ [k]))
                = a ++ "." ++ joinPath ((b :: rest2) ++ [k]) from rfl,
            show joinPath (a :: b :: rest2) = a ++ "." ++ joinPath (b :: rest2) from rfl]
          simp only [String.length_append] at step ⊢
          omega

mutual
theorem bnc_keylen (v : Value) (args : List String) (ha : args ≠ []) :
    ∀ e ∈ buildNotificationChain v args, (joinPath args).length < e.1.length := by
  cases v with
  | obj fields =>
      intro e he
      exact bncLoop_keylen [] fields args ha (by simp) e he
  | arr elems =>
      intro e he
      exact bncElemsLoop_keylen [] 0 elems args ha (by simp) e he
  | undefV => intro e he; simp [buildNotificationChain] at he
  | vnull => intro e he; simp [buildNotificationChain] at he
  | prim n => intro e he; simp [buildNotificationChain] at he
  | str s => intro e he; simp [buildNotificationChain] at he

theorem bncLoop_keylen (chain : Chain) (fields : Fields) (args : List String) (ha : args ≠ [])
    (hc : ∀ e ∈ chain, (joinPath args).length < e.1.length) :
    ∀ e ∈ bncLoop chain fields args, (joinPath args).length < e.1.length := by
  cases fields with
  | fnil => simpa [bncLoop] using hc
  | fcons key v rest =>
      have hlen := joinPath_append_length args key ha
      have hc1 : ∀ e ∈ jsInsert chain (joinPath (args ++ [key])) v,
          (joinPath args).length < e.1.length := by
        intro e he
        rcases mem_jsInsert he with h | h
        · exact hc e h
        · rw [h, hlen]; omega
      have hc2 : ∀ e ∈ (if typeofObject v && !isArray v then
            jsAssign (jsInsert chain (joinPath (args ++ [key])) v)
              (buildNotificationChain v (args ++ [key]))
          else jsInsert chain (joinPath (args ++ [key])) v),
          (joinPath args).length < e.1.length := by
        split
        · intro e he
          rcases mem_jsAssign _ _ he with h | h
          · exact hc1 e h
          · rcases h with ⟨x, hx, hex⟩
            have hx2 := bnc_keylen v (args ++ [key]) (by simp) x hx
            rw [hex]
            omega
        · exact hc1
      intro e he
      exact bncLoop_keylen _ rest args ha hc2 e he

theorem bncElemsLoop_keylen (chain : Chain) (i : Nat) (elems : Elems) (args : List String)
    (ha : args ≠ [])
    (hc : ∀ e ∈ chain, (joinPath args).length < e.1.length) :
    ∀ e ∈ bncElemsLoop chain i elems args, (joinPath args).length < e.1.length := by
  cases elems with
  | enil => simpa [bncElemsLoop] using hc
  | econs v rest =>
      have hlen := joinPath_append_length args (Nat.repr i) ha
      have hc1 : ∀ e ∈ jsInsert chain (joinPath (args ++ [Nat.repr i])) v,
          (joinPath args).length < e.1.length := by
        intro e he
        rcases mem_jsInsert he with h | h
        · exact hc e h
        · rw [h, hlen]; omega
      have hc2 : ∀ e ∈ (if typeofObject v && !isArray v then
            jsAssign (jsInsert chain (joinPath (args ++ [Nat.repr i])) v)
              (buildNotificationChain v (args ++ [Nat.repr i]))
          else jsInsert chain (joinPath (args ++ [Nat.repr i])) v),
          (joinPath args).length < e.1.length := by
        split
        · intro e he
          rcases mem_jsAssign _ _ he with h | h
          · exact hc1 e h
          · rcases h with ⟨x, hx, hex⟩
            have hx2 := bnc_keylen v (args ++ [Nat.repr i]) (by simp) x hx
            rw [hex]
            omega
        · exact hc1
      intro e he
      exact bncElemsLoop_keylen _ (i + 1) rest args ha hc2 e he
end

theorem setTrap_obj_none (observed : List String) (obj : Fields) (prop : String)
    (fv : Fields) (args : List String) :
    setTrap none observed obj prop (Value.obj fv) args =
      ⟨false, true, obj.jsSet prop (Value.obj fv),
        jsAssign [(prop, Value.obj fv)] (buildNotificationChain (Value.obj fv) [prop]),
        deliverChain observed
          (jsAssign [(prop, Value.obj fv)] (buildNotificationChain (Value.obj fv) [prop])),
        false⟩ := rfl

theorem setTrap_arr_none (observed : List String) (obj : Fields) (prop : String)
    (elems : Elems) (args : List String) :
    setTrap none observed obj prop (Value.arr elems) args =
      ⟨false, true, obj.jsSet prop (Value.arr elems),
        jsAssign [(prop, Value.arr elems)] (buildNotificationChain (Value.arr elems) [prop]),
        deliverChain observed
          (jsAssign [(prop, Value.arr elems)] (buildNotificationChain (Value.arr elems) [prop])),
        false⟩ := rfl

theorem joinPath_single (s : String) : joinPath [s] = s := rfl

theorem joinPath_pair (s t : String) : joinPath [s, t] = s ++ "." ++ t := rfl

theorem bnc_key_ne_prop {prop : String} {e : String × Value} {v : Value}
    (he : e ∈ buildNotificationChain v [prop]) : e.1 ≠ prop := by
  intro hkey
  have := bnc_keylen v [prop] (by simp) e he
  rw [joinPath_single, hkey] at this
  omega

theorem bncElems_eq (elems : Elems) :
    ∀ (chain : Chain) (i : Nat) (args : List String),
      bncElemsLoop chain i elems args = bncLoop chain (arrEntries i elems) args := by
  cases elems with
  | enil => intro chain i args; rfl
  | econs v rest =>
      intro chain i args
      rw [arrEntries, bncElemsLoop, bncLoop]
      exact bncElems_eq rest _ _ _

theorem bncElemsLoop_hasKey_mono {k : String} (elems : Elems) :
    ∀ (chain : Chain) (i : Nat) (args : List String), hasKey chain k = true →
      hasKey (bncElemsLoop chain i elems args) k = true := by
  cases elems with
  | enil => intro chain i args h; simpa [bncElemsLoop] using h
  | econs v rest =>
      intro chain i args h
      rw [bncElemsLoop]
      refine bncElemsLoop_hasKey_mono rest _ _ _ ?_
      have h1 : hasKey (jsInsert chain (joinPath (args ++ [Nat.repr i])) v) k = true :=
        hasKey_jsInsert_mono _ _ h
      split
      · exact hasKey_jsAssign_left _ _ h1
      · exact h1

theorem bncElemsLoop_hasKey (elems : Elems) :
    ∀ (chain : Chain) (i j : Nat) (args : List String), j < elemsLen elems →
      hasKey (bncElemsLoop chain i elems args) (joinPath (args ++ [Nat.repr (i + j)])) = true := by
  cases elems with
  | enil => intro chain i j args hj; simp [elemsLen] at hj
  | econs v rest =>
      intro chain i j args hj
      rw [bncElemsLoop]
      cases j with
      | zero =>
          apply bncElemsLoop_hasKey_mono
          have h1 : hasKey (jsInsert chain (joinPath (args ++ [Nat.repr i])) v)
              (joinPath (args ++ [Nat.repr i])) = true := hasKey_jsInsert_self _ _ _
          rw [show i + 0 = i from rfl]
          split
          · exact hasKey_jsAssign_left _ _ h1
          · exact h1
      | succ j2 =>
          have hj2 : j2 < elemsLen rest := by
            rw [elemsLen] at hj
            omega
          rw [show i + (j2 + 1) = i + 1 + j2 by omega]
          exact bncElemsLoop_hasKey rest _ (i + 1) j2 args hj2

theorem deliver_any_of_hasKey {observed : List String} {key : String} {c : Chain}
    (hk : hasKey c key = true) (ho : observed.contains key = true) :
    (deliverChain observed c).any (fun e => e.1 = key) = true := by
  unfold hasKey at hk
  rcases List.any_eq_true.1 hk with ⟨x, hx, hxk⟩
  have hx1 : x.1 = key := of_decide_eq_true (by simpa using hxk)
  refine List.any_eq_true.2 ⟨x, ?_, hxk⟩
  unfold deliverChain
  refine List.mem_filter.2 ⟨hx, ?_⟩
  rw [hx1]
  exact ho

theorem specResolve_undef (segs : List String) : specResolve .undefV segs = .undefV := by
  cases segs <;> rfl

theorem specResolve_obj (f : Fields) (s : String) (rest : List String) :
    specResolve (Value.obj f) (s :: rest) =
      if s != "" && f.hasOwn s then specResolve (f.jsGet s) rest else .undefV := rfl

theorem snapAcc_obj (f : Fields) (s : String) :
    snapAcc (Value.obj f) s = if s != "" && f.hasOwn s then f.jsGet s else .undefV := by
  simp only [snapAcc, truthyV, typeofObject, isArray, hasOwnV, jsGetV,
    Bool.true_and, Bool.not_false, Bool.and_true]

theorem snapAcc_not_obj (v : Value) (s : String) (hv : ∀ f, v ≠ Value.obj f) :
    snapAcc v s = .undefV := by
  cases v with
  | obj f => exact absurd rfl (hv f)
  | undefV => rfl
  | vnull => rfl
  | prim n => simp [snapAcc, truthyV, typeofObject]
  | str s2 => simp [snapAcc, truthyV, typeofObject]
  | arr elems => simp [snapAcc, isArray]

theorem snapFold_eq_specResolve : ∀ (segs : List String) (v : Value),
    List.foldl snapAcc v segs = specResolve v segs := by
  intro segs
  induction segs with
  | nil => intro v; rfl
  | cons s rest ih =>
      intro v
      rw [List.foldl_cons, ih]
      cases v with
      | obj f =>
          rw [snapAcc_obj, specResolve_obj]
          by_cases hcond : (s != "" && f.hasOwn s) = true
          · rw [if_pos hcond, if_pos hcond]
          · rw [if_neg hcond, if_neg hcond, specResolve_undef]
      | undefV => rw [snapAcc_not_obj _ _ (by intro f h; cases h), specResolve_undef]; rfl
      | vnull => rw [snapAcc_not_obj _ _ (by intro f h; cases h), specResolve_undef]; rfl
      | prim n => rw [snapAcc_not_obj _ _ (by intro f h; cases h), specResolve_undef]; rfl
      | str s2 => rw [snapAcc_not_obj _ _ (by intro f h; cases h), specResolve_undef]; rfl
      | arr elems => rw [snapAcc_not_obj _ _ (by intro f h; cases h), specResolve_undef]; rfl

theorem wrapFuel_cyclic : ∀ fuel, wrapFuel fuel cyclicHeap 0 = none := by
  intro fuel
  induction fuel with
  | zero => simp [wrapFuel]
  | succ n ih =>
      rw [wrapFuel]
      rw [show cyclicHeap.fields 0 = [("self", HVal.href 0)] from rfl]
      rw [wrapFields, ih]
      rfl

theorem wrapFields_isSome (n : Nat) (h : Heap) :
    ∀ (l : List (String × HVal)),
      (∀ key b, (key, HVal.href b) ∈ l → (wrapFuel n h b).isSome = true) →
      (wrapFields n h l).isSome = true := by
  intro l
  induction l with
  | nil => intro _; simp [wrapFields]
  | cons x rest ih =>
      intro hl
      obtain ⟨key, hv⟩ := x
      have hrest := ih (fun k b hb => hl k b (List.mem_cons_of_mem _ hb))
      rcases Option.isSome_iff_exists.1 hrest with ⟨ws, hws⟩
      cases hv with
      | hprim m => rw [wrapFields, hws]; rfl
      | harr => rw [wrapFields, hws]; rfl
      | href b =>
          have h1 := hl key b (List.mem_cons_self _ _)
          rcases Option.isSome_iff_exists.1 h1 with ⟨w, hw⟩
          rw [wrapFields, hw, hws]
          rfl

/-! ## Claims -/

/-- Claim C1, counterexample: deleting `"a"` from `{a: {b: 1}}` with channels
open on `"a"` and `"a.b"` and no caller-supplied trap is confirmed (default
removal succeeds), yet nothing is delivered — contradicting the claim that a
confirmed delete delivers a chain mapping the path and its descendants to the
removed sentinel.  `src/index.ts` installs no `deleteProperty` trap and has no
removed sentinel at all. -/
theorem C1_cex :
    deleteTrap none ["a", "a.b"]
        (.fcons "a" (.obj (.fcons "b" (.prim 1) .fnil)) .fnil) "a" =
      ⟨true, .fnil, []⟩ := by decide

/-- Claim C1 as amended: deletes are not intercepted by the library.  No
notification is ever delivered on a delete (with or without a caller-supplied
`deleteProperty` trap), and with none supplied the host's default removal
deletes the own property and reports success. -/
theorem C1_thm (optDelete : Option (Fields → String → Fields × Bool))
    (observed : List String) (target : Fields) (prop : String) :
    (deleteTrap optDelete observed target prop).delivered = []
    ∧ deleteTrap none observed target prop = ⟨true, target.jsDelete prop, []⟩ := by
  constructor
  · cases optDelete <;> rfl
  · rfl

/-- Claim C2 (code bug): at the failing input — a nested set with bound path
prefix `["a"]`, `prop = "b"`, composite value `{c: 1}`, channels open on the
composed paths `"a.b"`, `"a.b.c"` and on the bare paths `"b"`, `"b.c"` — the
chain is keyed by the bare `prop`, so the channels `"b"` and `"b.c"` fire and
the composed paths `"a.b"`, `"a.b.c"` receive nothing; in general a composite
assignment is entirely independent of the bound prefix `args`. -/
theorem C2_thm :
    ((setTrap none ["a.b", "a.b.c", "b", "b.c"] (.fcons "b" (.prim 0) .fnil) "b"
        (.obj (.fcons "c" (.prim 1) .fnil)) ["a"]).delivered.map Prod.fst = ["b", "b.c"])
    ∧ (∀ (obj : Fields) (prop : String) (fv : Fields) (args observed : List String),
        setTrap none observed obj prop (.obj fv) args
          = setTrap none observed obj prop (.obj fv) []) :=
  ⟨by decide, fun _ _ _ _ _ => rfl⟩

/-- Claim C3, counterexample: replacing `{z: 2}` by `{y: 3}` at `"a"` yields
the chain `[("a", {y: 3}), ("a.y", 3)]` — the eliminated descendant path
`"a.z"` gets no entry (and no removed sentinel, which does not exist in the
code). -/
theorem C3_cex :
    ((setTrap none ["a", "a.y", "a.z"]
        (.fcons "a" (.obj (.fcons "z" (.prim 2) .fnil)) .fnil) "a"
        (.obj (.fcons "y" (.prim 3) .fnil)) []).chain =
      [("a", .obj (.fcons "y" (.prim 3) .fnil)), ("a.y", .prim 3)])
    ∧ hasKey (setTrap none ["a", "a.y", "a.z"]
        (.fcons "a" (.obj (.fcons "z" (.prim 2) .fnil)) .fnil) "a"
        (.obj (.fcons "y" (.prim 3) .fnil)) []).chain "a.z" = false := by decide

/-- Claim C3 as amended: the notification chain of a composite assignment is
computed from the new value alone — it does not depend on the replaced old
value in any way, so no entry (sentinel or otherwise) is produced for
descendant paths of the old value that are absent from the new one. -/
theorem C3_thm (t1 t2 : Fields) (prop : String) (fv : Fields)
    (args observed : List String) :
    (setTrap none observed t1 prop (.obj fv) args).chain
        = (setTrap none observed t2 prop (.obj fv) args).chain
    ∧ (setTrap none observed t1 prop (.obj fv) args).delivered
        = (setTrap none observed t2 prop (.obj fv) args).delivered := ⟨rfl, rfl⟩

/-- Claim C4, counterexample: on the self-referential input `o.self = o`
(expressed as a one-address heap), the initial wrap pass never completes —
no recursion-depth budget suffices, because `buildInitialProxyChain` has no
visited-identity set and recurses into the object-typed property forever. -/
theorem C4_cex : ¬ ∃ (fuel : Nat) (w : WrapOut), wrapFuel fuel cyclicHeap 0 = some w := by
  rintro ⟨fuel, w, hw⟩
  rw [wrapFuel_cyclic fuel] at hw
  exact Option.noConfusion hw

/-- Claim C4 as amended: the initial wrap pass has no cycle guard; it
terminates exactly on acyclic inputs.  For every heap admitting a rank
function that strictly decreases along references (an acyclic object graph),
the recursion completes once the fuel exceeds the root's rank. -/
theorem C4_thm (h : Heap) (r : Nat → Nat) (hr : RankOk h r) (fuel a : Nat)
    (hf : r a < fuel) : (wrapFuel fuel h a).isSome = true := by
  induction fuel generalizing a with
  | zero => omega
  | succ n ih =>
      rw [wrapFuel]
      have hsome : (wrapFields n h (h.fields a)).isSome = true := by
        refine wrapFields_isSome n h (h.fields a) ?_
        intro key b hb
        exact ih b (by have := hr a key b hb; omega)
      rcases Option.isSome_iff_exists.1 hsome with ⟨ws, hws⟩
      rw [hws]
      rfl

/-- Witness for C4_thm at the concrete acyclic heap `{x: {n: 5}}` with rank
`1, 0, 0, …`. -/
theorem C4_thm_witness :
    RankOk acyclicHeapEx rankEx ∧ (wrapFuel 2 acyclicHeapEx 0).isSome = true := by
  have hrank : RankOk acyclicHeapEx rankEx := by
    intro a key b hb
    by_cases h0 : a = 0
    · subst h0
      simp [acyclicHeapEx] at hb
      rcases hb with ⟨-, hb2⟩
      subst hb2
      decide
    · by_cases h1 : a = 1
      · subst h1
        simp [acyclicHeapEx] at hb
      · simp [acyclicHeapEx, h0, h1] at hb
  exact ⟨hrank, C4_thm acyclicHeapEx rankEx hrank 2 0 (by decide)⟩

/-- Claim C5, counterexample: setting `{b: 1}` at root property `"a"` with
channels on `"a"` and `"a.b"` delivers `("a", …)` first and the descendant
`("a.b", 1)` second — the enclosing composite's subscriber observes the
change before the leaf's subscriber, the reverse of the claimed order. -/
theorem C5_cex :
    (setTrap none ["a", "a.b"] .fnil "a" (.obj (.fcons "b" (.prim 1) .fnil)) []).delivered =
      [("a", .obj (.fcons "b" (.prim 1) .fnil)), ("a.b", .prim 1)] := by decide

/-- Claim C5 as amended: for a composite assignment the chain is delivered in
insertion order with the mutated path itself first: the chain's head is the
`(prop, value)` entry, every later entry's key is strictly longer than
`prop`, and delivery is exactly the chain filtered by the open channels (so
order is preserved). -/
theorem C5_thm (obj fv : Fields) (prop : String) (args observed : List String) :
    (setTrap none observed obj prop (.obj fv) args).chain.head? = some (prop, Value.obj fv)
    ∧ (setTrap none observed obj prop (.obj fv) args).chain.tail.all
        (fun e => decide (prop.length < e.1.length)) = true
    ∧ (setTrap none observed obj prop (.obj fv) args).delivered
        = deliverChain observed (setTrap none observed obj prop (.obj fv) args).chain := by
  rw [setTrap_obj_none]
  have hchain : jsAssign [(prop, Value.obj fv)] (buildNotificationChain (Value.obj fv) [prop])
      = (prop, Value.obj fv) :: jsAssign [] (buildNotificationChain (Value.obj fv) [prop]) :=
    jsAssign_cons_head _ _ _ (fun e he => bnc_key_ne_prop he)
  refine ⟨?_, ?_, rfl⟩
  · show (jsAssign [(prop, Value.obj fv)]
        (buildNotificationChain (Value.obj fv) [prop])).head? = some (prop, Value.obj fv)
    rw [hchain]
    rfl
  · show (jsAssign [(prop, Value.obj fv)]
        (buildNotificationChain (Value.obj fv) [prop])).tail.all
        (fun e => decide (prop.length < e.1.length)) = true
    rw [hchain, List.tail_cons, List.all_eq_true]
    intro e he
    apply decide_eq_true
    rcases mem_jsAssign _ _ he with h | h
    · simp at h
    · rcases h with ⟨x, hx, hex⟩
      have hx2 := bnc_keylen (Value.obj fv) [prop] (by simp) x hx
      rw [joinPath_single] at hx2
      rw [hex]
      omega

/-- Claim C6, counterexample: an array is a leaf (non-composite) value, and
here the assigned array is identical to the stored one — yet the set trap
does not short-circuit: it takes the `typeof value === "object"` branch,
reports success and delivers notifications for `"a"` and the index path
`"a.0"`.  The idempotent no-op applies only to non-object-typed values. -/
theorem C6_cex :
    setTrap none ["a", "a.0"] (.fcons "a" (.arr (.econs (.prim 1) .enil)) .fnil) "a"
        (.arr (.econs (.prim 1) .enil)) [] =
      ⟨false, true, .fcons "a" (.arr (.econs (.prim 1) .enil)) .fnil,
        [("a", .arr (.econs (.prim 1) .enil)), ("a.0", .prim 1)],
        [("a", .arr (.econs (.prim 1) .enil)), ("a.0", .prim 1)], false⟩ := by decide

/-- Claim C6 as amended: for every assignment of a non-object-typed value
(`typeof value !== "object"`: a primitive other than `null`) identical to the
stored value, the set trap short-circuits as a successful no-op: it reports
success, leaves the target unchanged, delivers nothing, and never consults
the override set hook.  (Arrays and `null` take the object branch instead.) -/
theorem C6_thm (hook : Option (Fields → String → Value → Bool)) (observed : List String)
    (obj : Fields) (prop : String) (value : Value) (args : List String)
    (h1 : typeofObject value = false) (h2 : obj.jsGet prop = value) :
    setTrap hook observed obj prop value args = ⟨false, true, obj, [], [], false⟩ := by
  simp [setTrap, h1, h2]

/-- Witness for C6_thm: re-assigning the stored primitive `5` to `"x"` is a
no-op even though a vetoing custom hook is installed — the hook is not
consulted. -/
theorem C6_thm_witness :
    typeofObject (.prim 5) = false
    ∧ (Fields.fcons "x" (.prim 5) .fnil).jsGet "x" = .prim 5
    ∧ setTrap (some (fun _ _ _ => false)) ["x"] (.fcons "x" (.prim 5) .fnil) "x"
        (.prim 5) [] = ⟨false, true, .fcons "x" (.prim 5) .fnil, [], [], false⟩ :=
  ⟨by decide, by decide, C6_thm _ _ _ _ _ _ (by decide) (by decide)⟩

/-- Claim C7, counterexample: assigning the array `[10, 20]` at root path
`"a"` delivers the indexed sub-paths `"a.0"` and `"a.1"` besides `"a"` —
arrays assigned through the set trap are decomposed into indexed paths (and
proxied), not stored as opaque leaves. -/
theorem C7_cex :
    (setTrap none ["a", "a.0", "a.1"] .fnil "a"
        (.arr (.econs (.prim 10) (.econs (.prim 20) .enil))) []).delivered =
      [("a", .arr (.econs (.prim 10) (.econs (.prim 20) .enil))),
        ("a.0", .prim 10), ("a.1", .prim 20)] := by decide

/-- Claim C7 as amended: the set trap treats an assigned array exactly like a
plain object keyed by its decimal indices: apart from the head entry's value,
the chain coincides with the one for the corresponding index-keyed object,
the head key is the bare `prop`, and for every index `i` of the array the
chain carries the key `prop ++ "." ++ i`.  (Only the initial wrap pass keeps
arrays opaque.) -/
theorem C7_thm (elems : Elems) (obj : Fields) (prop : String)
    (args observed : List String) :
    (setTrap none observed obj prop (.arr elems) args).chain.tail
        = (setTrap none observed obj prop (.obj (arrEntries 0 elems)) args).chain.tail
    ∧ ((setTrap none observed obj prop (.arr elems) args).chain.head?).map Prod.fst
        = some prop
    ∧ (List.range (elemsLen elems)).all
        (fun i => hasKey (setTrap none observed obj prop (.arr elems) args).chain
          (prop ++ "." ++ Nat.repr i)) = true := by
  rw [setTrap_arr_none, setTrap_obj_none]
  have harr : buildNotificationChain (Value.arr elems) [prop]
      = buildNotificationChain (Value.obj (arrEntries 0 elems)) [prop] := by
    show bncElemsLoop [] 0 elems [prop] = bncLoop [] (arrEntries 0 elems) [prop]
    exact bncElems_eq elems [] 0 [prop]
  have hchain1 : jsAssign [(prop, Value.arr elems)]
        (buildNotificationChain (Value.arr elems) [prop])
      = (prop, Value.arr elems)
          :: jsAssign [] (buildNotificationChain (Value.arr elems) [prop]) :=
    jsAssign_cons_head _ _ _ (fun e he => bnc_key_ne_prop he)
  have hchain2 : jsAssign [(prop, Value.obj (arrEntries 0 elems))]
        (buildNotificationChain (Value.obj (arrEntries 0 elems)) [prop])
      = (prop, Value.obj (arrEntries 0 elems))
          :: jsAssign [] (buildNotificationChain (Value.obj (arrEntries 0 elems)) [prop]) :=
    jsAssign_cons_head _ _ _ (fun e he => bnc_key_ne_prop he)
  refine ⟨?_, ?_, ?_⟩
  · show (jsAssign [(prop, Value.arr elems)]
        (buildNotificationChain (Value.arr elems) [prop])).tail
      = (jsAssign [(prop, Value.obj (arrEntries 0 elems))]
        (buildNotificationChain (Value.obj (arrEntries 0 elems)) [prop])).tail
    rw [hchain1, hchain2, List.tail_cons, List.tail_cons, harr]
  · show ((jsAssign [(prop, Value.arr elems)]
        (buildNotificationChain (Value.arr elems) [prop])).head?).map Prod.fst = some prop
    rw [hchain1]
    rfl
  · rw [List.all_eq_true]
    intro i hi
    have hi2 : i < elemsLen elems := List.mem_range.1 hi
    have hk := bncElemsLoop_hasKey elems [] 0 i [prop] hi2
    rw [show (0 : Nat) + i = i by omega] at hk
    rw [show joinPath ([prop] ++ [Nat.repr i]) = prop ++ "." ++ Nat.repr i from rfl] at hk
    exact hasKey_jsAssign_right _ _ hk

/-- Claim C8 (code bug): at the failing input `value = null` (an ordinary
assignment, `typeof null === "object"`), the set trap does not return a
boolean — `new Proxy(null, …)` at src/index.ts:71 raises a `TypeError`.
Nothing is stored or delivered and the trap reports failure only by
throwing. -/
theorem C8_thm (obj : Fields) (prop : String) (args observed : List String) :
    setTrap none observed obj prop .vnull args = ⟨true, false, obj, [], [], false⟩ := rfl

/-- Claim C9, counterexample: the stored value at `"a"` is the array
`[1, 2]`, a leaf, yet `snapshot("a")` does not return it as-is: the
`typeof === "object"` test sends it through `Object.assign({}, …)`, which
produces a plain object keyed by the indices. -/
theorem C9_cex :
    (Fields.fcons "a" (.arr (.econs (.prim 1) (.econs (.prim 2) .enil))) .fnil).jsGet "a"
        = .arr (.econs (.prim 1) (.econs (.prim 2) .enil))
    ∧ snapshotPath (.fcons "a" (.arr (.econs (.prim 1) (.econs (.prim 2) .enil))) .fnil) "a"
        = .obj (.fcons "0" (.prim 1) (.fcons "1" (.prim 2) .fnil))
    ∧ snapshotPath (.fcons "a" (.arr (.econs (.prim 1) (.econs (.prim 2) .enil))) .fnil) "a"
        ≠ .arr (.econs (.prim 1) (.econs (.prim 2) .enil)) := by decide

/-- Claim C9 as amended: `snapshot(path)` for a non-empty path resolves the
dotted path exactly like the spec's recursive walk (failing on a missing
segment, an empty segment, or a non-plain-composite intermediate), and then
returns primitives as-is but passes every object-typed result — plain
objects, arrays and `null` — through `Object.assign({}, …)`: plain objects
are shallow-copied one level, arrays become plain objects keyed by their
indices, `null` becomes `{}`. -/
theorem C9_thm (root : Fields) (path : String) (hp : path ≠ "") :
    snapshotPath root path =
      (if specResolve (Value.obj root) (jsSplitDot path) = .undefV then Value.undefV
       else if typeofObject (specResolve (Value.obj root) (jsSplitDot path)) then
         objAssignCopy (specResolve (Value.obj root) (jsSplitDot path))
       else specResolve (Value.obj root) (jsSplitDot path)) := by
  unfold snapshotPath
  rw [if_pos (by simp [hp] : (path != "") = true)]
  simp only [snapFold_eq_specResolve]

/-- Witness for C9_thm at the empty root and path `"a"`. -/
theorem C9_thm_witness :
    ("a" : String) ≠ ""
    ∧ snapshotPath .fnil "a" =
      (if specResolve (Value.obj .fnil) (jsSplitDot "a") = .undefV then Value.undefV
       else if typeofObject (specResolve (Value.obj .fnil) (jsSplitDot "a")) then
         objAssignCopy (specResolve (Value.obj .fnil) (jsSplitDot "a"))
       else specResolve (Value.obj .fnil) (jsSplitDot "a")) :=
  ⟨by decide, C9_thm Fields.fnil "a" (by decide)⟩

/-- Claim C10 (confirmed): assigning a composite that is identical to the
value currently stored at the property still builds and delivers the
notification chain — the trap does not throw, reports success, consults no
hook (none is installed here), the chain starts with the `(prop, value)`
entry, and with a channel open on `prop` a notification for `prop` is
delivered.  The idempotent short-circuit never applies to object-typed
values. -/
theorem C10_thm (obj fv : Fields) (prop : String) (args observed : List String)
    (_h1 : obj.jsGet prop = Value.obj fv) (h2 : observed.contains prop = true) :
    (setTrap none observed obj prop (Value.obj fv) args).threw = false
    ∧ (setTrap none observed obj prop (Value.obj fv) args).ok = true
    ∧ (setTrap none observed obj prop (Value.obj fv) args).hookCalled = false
    ∧ (setTrap none observed obj prop (Value.obj fv) args).chain
        = (prop, Value.obj fv) :: jsAssign [] (buildNotificationChain (Value.obj fv) [prop])
    ∧ (setTrap none observed obj prop (Value.obj fv) args).delivered.any
        (fun e => e.1 = prop) = true := by
  rw [setTrap_obj_none]
  refine ⟨rfl, rfl, rfl, ?_, ?_⟩
  · exact jsAssign_cons_head _ _ _ (fun e he => bnc_key_ne_prop he)
  · refine deliver_any_of_hasKey ?_ h2
    exact hasKey_jsAssign_left _ _ (by simp [hasKey])

/-- Witness for C10_thm: re-assigning the stored composite `{b: 1}` at `"a"`
with a channel open on `"a"` delivers a notification for `"a"`. -/
theorem C10_thm_witness :
    (Fields.fcons "a" (Value.obj (.fcons "b" (.prim 1) .fnil)) .fnil).jsGet "a"
        = Value.obj (.fcons "b" (.prim 1) .fnil)
    ∧ (["a"] : List String).contains "a" = true
    ∧ ((setTrap none ["a"] (Fields.fcons "a" (Value.obj (.fcons "b" (.prim 1) .fnil)) .fnil)
          "a" (Value.obj (.fcons "b" (.prim 1) .fnil)) []).threw = false
      ∧ (setTrap none ["a"] (Fields.fcons "a" (Value.obj (.fcons "b" (.prim 1) .fnil)) .fnil)
          "a" (Value.obj (.fcons "b" (.prim 1) .fnil)) []).ok = true
      ∧ (setTrap none ["a"] (Fields.fcons "a" (Value.obj (.fcons "b" (.prim 1) .fnil)) .fnil)
          "a" (Value.obj (.fcons "b" (.prim 1) .fnil)) []).hookCalled = false
      ∧ (setTrap none ["a"] (Fields.fcons "a" (Value.obj (.fcons "b" (.prim 1) .fnil)) .fnil)
          "a" (Value.obj (.fcons "b" (.prim 1) .fnil)) []).chain
          = ("a", Value.obj (.fcons "b" (.prim 1) .fnil))
              :: jsAssign [] (buildNotificationChain (Value.obj (.fcons "b" (.prim 1) .fnil)) ["a"])
      ∧ (setTrap none ["a"] (Fields.fcons "a" (Value.obj (.fcons "b" (.prim 1) .fnil)) .fnil)
          "a" (Value.obj (.fcons "b" (.prim 1) .fnil)) []).delivered.any
          (fun e => e.1 = "a") = true) :=
  ⟨by decide, by decide, C10_thm _ _ _ _ _ (by decide) (by decide)⟩
